import Mathlib

/-!
Verification development for `src/tools/juman_secure.py` (JUMANV4).

Bytes are modelled as natural numbers (`List Nat` for byte strings).  The
AES-GCM primitive of the external `cryptography` library is modelled as an
ideal authenticated cipher: the keystream is the identity (no claim here
concerns confidentiality) and the 16-byte authentication tag is modelled as a
single unbounded authenticator value computed by a collision-free function of
(key, nonce, ciphertext), which is the standard symbolic idealisation of an
AEAD tag.  Everything layered on top of the primitive (nonce prefixing,
slicing, key wrapping, storage naming, lookup, deletion, backup) is translated
directly from the Python source.
-/

namespace Juman

/-- Largest element of a list of naturals (0 for the empty list). -/
def maxL (l : List Nat) : Nat := l.foldr max 0

/-- Positional base-`b` encoding of a list, each entry shifted by one so that
no digit is zero.  Injective on lists whose entries are below `b - 1`. -/
def encB (b : Nat) : List Nat → Nat
  | [] => 0
  | x :: xs => (x + 1) + b * encB b xs

/-- Injective encoding of an arbitrary list of naturals into one natural:
the base is chosen large enough for the list's entries and paired with the
digit string. -/
def encL (l : List Nat) : Nat := Nat.pair (maxL l + 2) (encB (maxL l + 2) l)

theorem mem_le_maxL {l : List Nat} {x : Nat} (hx : x ∈ l) : x ≤ maxL l := by
  induction l with
  | nil => cases hx
  | cons a t ih =>
    rcases List.mem_cons.mp hx with h | h
    · subst h; exact le_max_left _ _
    · exact le_trans (ih h) (le_max_right _ _)

theorem encB_inj (b : Nat) :
    ∀ l l' : List Nat, (∀ x ∈ l, x + 1 < b) → (∀ x ∈ l', x + 1 < b) →
      encB b l = encB b l' → l = l' := by
  intro l
  induction l with
  | nil =>
    intro l' _ h' he
    cases l' with
    | nil => rfl
    | cons y t =>
      exfalso
      simp only [encB] at he
      omega
  | cons x xs ih =>
    intro l' h h' he
    cases l' with
    | nil =>
      exfalso
      simp only [encB] at he
      omega
    | cons y t =>
      simp only [encB] at he
      have hx : x + 1 < b := h x (List.mem_cons_self _ _)
      have hy : y + 1 < b := h' y (List.mem_cons_self _ _)
      have hb : 0 < b := by omega
      have hmodx : (x + 1 + b * encB b xs) % b = x + 1 := by
        rw [Nat.add_mul_mod_self_left]
        exact Nat.mod_eq_of_lt hx
      have hmody : (y + 1 + b * encB b t) % b = y + 1 := by
        rw [Nat.add_mul_mod_self_left]
        exact Nat.mod_eq_of_lt hy
      have hxy : x = y := by
        have := hmodx.symm.trans (he ▸ hmody)
        omega
      subst hxy
      have htail : encB b xs = encB b t := by
        have hmul : b * encB b xs = b * encB b t := by omega
        exact Nat.eq_of_mul_eq_mul_left hb hmul
      have := ih t (fun z hz => h z (List.mem_cons_of_mem _ hz))
        (fun z hz => h' z (List.mem_cons_of_mem _ hz)) htail
      rw [this]

theorem encL_injective : Function.Injective encL := by
  intro l l' he
  unfold encL at he
  have hcomp := Nat.pair_eq_pair.mp he
  have hbase : maxL l + 2 = maxL l' + 2 := hcomp.1
  have hdig : encB (maxL l + 2) l = encB (maxL l + 2) l' := by
    rw [hcomp.2, ← hbase]
  exact encB_inj (maxL l + 2) l l'
    (fun x hx => by have := mem_le_maxL hx; omega)
    (fun x hx => by have := mem_le_maxL hx; have : x ≤ maxL l' := this; omega)
    hdig

/-- Ideal model of the AES-GCM authentication tag: a collision-free function
of key, nonce and ciphertext. -/
def macN (key nonce ct : List Nat) : Nat :=
  Nat.pair (encL key) (Nat.pair (encL nonce) (encL ct))

theorem macN_inj {k k' n n' c c' : List Nat} (h : macN k n c = macN k' n' c') :
    k = k' ∧ n = n' ∧ c = c' := by
  unfold macN at h
  have h1 := Nat.pair_eq_pair.mp h
  have h2 := Nat.pair_eq_pair.mp h1.2
  exact ⟨encL_injective h1.1, encL_injective h2.1, encL_injective h2.2⟩

/-- Ideal AEAD encryption (`AESGCM(key).encrypt(nonce, pt, None)`):
ciphertext body is the plaintext (identity keystream) followed by the
authenticator. -/
def aeadEncrypt (key nonce pt : List Nat) : List Nat :=
  pt ++ [macN key nonce pt]

/-- Ideal AEAD decryption (`AESGCM(key).decrypt(nonce, data, None)`):
recomputes the authenticator over the ciphertext body and fails (returns
`none`, modelling the raised `InvalidTag`) unless it matches the stored one.
Empty input (shorter than a tag) also fails. -/
def aeadDecrypt (key nonce data : List Nat) : Option (List Nat) :=
  if data.length = 0 then none
  else if data.getLastD 0 = macN key nonce data.dropLast then some data.dropLast
  else none

/-- `AESGCM_IV_LEN` from the source. -/
def AESGCM_IV_LEN : Nat := 12

/-- `PBKDF2_ITER` from the source. -/
def PBKDF2_ITER : Nat := 200000

/-- `_encrypt_with_key(plaintext, key)` from the source: draws a 12-byte IV
(here the RNG draw is the explicit `iv` argument) and returns `iv + ct`. -/
def encrypt_with_key (plaintext key iv : List Nat) : List Nat :=
  iv ++ aeadEncrypt key iv plaintext

/-- `_decrypt_with_key(data, key)` from the source: splits the first
`AESGCM_IV_LEN` bytes off as the IV and AEAD-decrypts the remainder. -/
def decrypt_with_key (data key : List Nat) : Option (List Nat) :=
  aeadDecrypt key (data.take AESGCM_IV_LEN) (data.drop AESGCM_IV_LEN)

theorem aead_roundtrip (key nonce pt : List Nat) :
    aeadDecrypt key nonce (aeadEncrypt key nonce pt) = some pt := by
  unfold aeadEncrypt aeadDecrypt
  simp [List.getLastD_concat, List.dropLast_concat]

/-- UTF-8 code points of a string, the byte-level view used for passwords
(`password.encode('utf-8')`); all concrete passwords in this file are ASCII,
where code points and bytes coincide. -/
def strBytes (s : String) : List Nat := s.data.map Char.toNat

/-- `_derive_key(password, salt, iterations)` from the source:
PBKDF2-HMAC-SHA256 is modelled as an ideal KDF, i.e. an injective function of
(password, salt, iterations) producing a key. -/
def derive_key (password : String) (salt : List Nat) (iterations : Nat) :
    List Nat :=
  [Nat.pair (encL (strBytes password)) (Nat.pair (encL salt) iterations)]

/-- Persisted `config.json` contents: `{salt, iterations}`. -/
structure VConfig where
  salt : List Nat
  iterations : Nat
  deriving DecidableEq

/-- On-disk state of one vault data directory: the three root files
(`config.json`, `master.key.enc`, `recovery.txt`, each `none` when absent)
and the `storage/` directory as a listing of (file name, file bytes) in
enumeration order. -/
structure Vault where
  config : Option VConfig
  mkEnc : Option (List Nat)
  recovery : Option (List Nat)
  storage : List (List Char × List Nat)
  deriving DecidableEq

/-- Error taxonomy of the operations modelled here (the Python code raises
`FileNotFoundError`, `ValueError`, `OSError` respectively). -/
inductive JErr
  | configMissing
  | badPassword
  | inputMissing
  | readFail
  deriving DecidableEq

/-- `load_master_key(data_dir, password)` from the source: requires both
`config.json` and `master.key.enc` to exist, re-derives the wrapping key from
the stored salt and iteration count, and decrypts the stored wrap; a failed
decryption (wrong password or corrupted wrap) is an error. -/
def load_master_key (v : Vault) (password : String) : Except JErr (List Nat) :=
  match v.config, v.mkEnc with
  | some cfg, some enc =>
    let dk := derive_key password cfg.salt cfg.iterations
    match decrypt_with_key enc dk with
    | some mk => .ok mk
    | none => .error .badPassword
  | _, _ => .error .configMissing

/-- `init_data_dir(data_dir, password)` from the source.  The RNG draws
(`master_key`, `salt`, the recovery token, the wrap IV) and the random
password generated when `password is None` are explicit arguments.  If both
`config.json` and `master.key.enc` already exist, nothing is written. -/
def init_data_dir (v : Vault) (password : Option String) (genPw : String)
    (master_key salt recTok iv : List Nat) : Vault :=
  if v.config.isSome && v.mkEnc.isSome then v
  else
    let pw := password.getD genPw
    let dk := derive_key pw salt PBKDF2_ITER
    { config := some ⟨salt, PBKDF2_ITER⟩
      mkEnc := some (encrypt_with_key master_key dk iv)
      recovery := some recTok
      storage := v.storage }

/-- `_sanitize_filename(fn)` from the source:
`''.join(c if c.isalnum() or c in '._-' else '_' for c in fn)`.
`Char.isAlphanum` models Python's `str.isalnum` on the ASCII subset (they
coincide there; Python additionally accepts non-ASCII Unicode alphanumerics,
which no claim here exercises). -/
def sanitize_filename (fn : List Char) : List Char :=
  fn.map (fun c => if c.isAlphanum || c = '.' || c = '_' || c = '-' then c else '_')

/-- The `.jmn` extension appended to stored blob names. -/
def jmnExt : List Char := ".jmn".data

/-- ASCII lower-casing of a name, modelling Python's `str.lower` on the ASCII
subset. -/
def lowerS (s : List Char) : List Char := s.map Char.toLower

/-- Python `name.split('__', 1)[0]` guarded by `'__' in name`: `some` of the
portion before the first `__` when the separator occurs, `none` otherwise. -/
def idPartOf : List Char → Option (List Char)
  | '_' :: '_' :: _ => some []
  | c :: cs => (idPartOf cs).map (fun r => c :: r)
  | [] => none

/-- First per-entry check of the lookup loop: case-insensitive match of the
entry against the queried name or the queried name plus `.jmn`. -/
def ciMatch (q n : List Char) : Bool :=
  lowerS n == lowerS q || lowerS n == lowerS (q ++ jmnExt)

/-- Third per-entry check of the lookup loop: the entry contains `__` and the
portion before it equals the queried name case-insensitively. -/
def idMatch (q n : List Char) : Bool :=
  match idPartOf n with
  | some idp => lowerS idp == lowerS q
  | none => false

/-- The `for p in storage_dir.iterdir()` loop of `find_stored_path`: returns
the first entry passing any of the three checks, in directory enumeration
order. -/
def loopFind (q : List Char) : List (List Char) → Option (List Char)
  | [] => none
  | n :: rest =>
    if ciMatch q n then some n
    else if q.isPrefixOf n then some n
    else if idMatch q n then some n
    else loopFind q rest

/-- `find_stored_path(storage_dir, stored_filename)` from the source, over the
storage directory's file-name listing: exact name, then name plus `.jmn`,
then the first-match scan. -/
def find_stored_path (files : List (List Char)) (q : List Char) :
    Option (List Char) :=
  if q ∈ files then some q
  else if (q ++ jmnExt) ∈ files then some (q ++ jmnExt)
  else loopFind q files

/-- Write a file into a directory listing: overwrite the entry of the same
name when present, otherwise append a new entry. -/
def storageWrite (st : List (List Char × List Nat)) (name : List Char)
    (content : List Nat) : List (List Char × List Nat) :=
  if st.any (fun e => e.1 == name) then
    st.map (fun e => if e.1 == name then (name, content) else e)
  else st ++ [(name, content)]

/-- `delete_stored(stored_filename, password)` from the source: resolves via
the tolerant lookup, securely erases the match (best effort), and reports
whether a match was found.  The `password` argument is part of the source
signature but is never used by the function body. -/
def delete_stored (v : Vault) (q : List Char) (password : String) :
    Bool × Vault :=
  match find_stored_path (v.storage.map Prod.fst) q with
  | none => (false, v)
  | some n => (true, { v with storage := v.storage.filter (fun e => !(e.1 == n)) })

/-- Failure oracle for the I/O steps of `store_encrypted` that run after the
output file has been opened: whether the chunked read loop over the input,
or the subsequent `input_path.read_bytes()`, raises an `OSError`. -/
inductive StoreFault
  | ok
  | streamReadFail
  | secondReadFail
  deriving DecidableEq

/-- The storage blob name built at lines 144-146 of the source:
`str(uuid.uuid4()) + '__' + _sanitize_filename(input_path.name) + '.jmn'`. -/
def blobName (uuidStr inputName : List Char) : List Char :=
  uuidStr ++ "__".data ++ sanitize_filename inputName ++ jmnExt

/-- `store_encrypted(input_path, password)` from the source, with the UUID
draw, the IV draw, the input file's bytes (`none` when the input file does not
exist) and the I/O failure oracle as explicit arguments.  Step order follows
the source: load the master key; compute the output name; open the input (an
absent input fails here, before the output file is created); open the output
and write the IV into it; run the chunked read loop; re-read the whole input;
encrypt and overwrite the output with `iv + ct`.  The best-effort secure
erasure of the input happens outside the vault directory and is not part of
the vault state. -/
def store_encrypted (v : Vault) (inputName : List Char)
    (input : Option (List Nat)) (password : String) (uuidStr : List Char)
    (iv : List Nat) (fault : StoreFault) : Except JErr (List Char) × Vault :=
  match load_master_key v password with
  | .error e => (.error e, v)
  | .ok mk =>
    let out_name := blobName uuidStr inputName
    match input with
    | none => (.error .inputMissing, v)
    | some data =>
      let v1 := { v with storage := storageWrite v.storage out_name iv }
      match fault with
      | .streamReadFail => (.error .readFail, v1)
      | .secondReadFail => (.error .readFail, v1)
      | .ok =>
        let ct := aeadEncrypt mk iv data
        let v2 := { v1 with storage := storageWrite v1.storage out_name (iv ++ ct) }
        (.ok out_name, v2)

/-- One observable filesystem action of an operation, recorded in order. -/
inductive FsOp
  | writeFile (name : List Char) (content : List Nat)
  | overwriteRandom (name : List Char)
  | unlink (name : List Char)
  deriving DecidableEq

/-- Modelled JSON serialisation of `config.json` (injective; its exact byte
layout is irrelevant to every claim). -/
def configBytes (c : VConfig) : List Nat :=
  [Nat.pair (encL c.salt) c.iterations]

/-- Modelled zip serialisation of an archive member list (injective; its
exact byte layout is irrelevant to every claim). -/
def zipBytes (members : List (List Char × List Nat)) : List Nat :=
  [encL (members.map (fun e => Nat.pair (encL (e.1.map Char.toNat)) (encL e.2)))]

/-- `BACKUP_SUFFIX` from the source. -/
def BACKUP_SUFFIX : List Char := ".jumanbackup".data

/-- Result of `create_encrypted_backup`: the name of the encrypted backup file
(`none` when the master-key load failed and the operation aborted), the zip
archive's member list (arcname, content), and the filesystem actions taken in
the vault directory, in order. -/
structure BackupOut where
  result : Option (List Char)
  archive : List (List Char × List Nat)
  ops : List FsOp
  deriving DecidableEq

/-- `create_encrypted_backup(password, data_dir, out_name)` from the source,
with the backup-encryption IV as an explicit argument.  The zip is built
first (every file under `storage/` with arcname `storage/<name>`, then
`config.json` and `recovery.txt` when they exist); then the master key is
loaded (a failure aborts here, leaving the plaintext zip on disk); then the
zip bytes are encrypted, the `.jumanbackup` file is written, and the
plaintext zip is unlinked. -/
def create_encrypted_backup (v : Vault) (password : String)
    (out_name : List Char) (iv : List Nat) : BackupOut :=
  let members :=
    (v.storage.map (fun e => ("storage/".data ++ e.1, e.2)))
    ++ (match v.config with
        | some c => [("config.json".data, configBytes c)]
        | none => [])
    ++ (match v.recovery with
        | some r => [("recovery.txt".data, r)]
        | none => [])
  let ops0 := [FsOp.writeFile out_name (zipBytes members)]
  match load_master_key v password with
  | .error _ => { result := none, archive := members, ops := ops0 }
  | .ok mk =>
    let enc := encrypt_with_key (zipBytes members) mk iv
    let enc_name := out_name ++ BACKUP_SUFFIX
    { result := some enc_name
      archive := members
      ops := ops0 ++ [FsOp.writeFile enc_name enc, FsOp.unlink out_name] }

/-! ### Claim theorems -/

/-- C1: For every byte string C and every 32-byte key k, decrypting the
result of encrypting C under k returns exactly C:
`_decrypt_with_key(_encrypt_with_key(C, k), k) == C` (the RNG-drawn IV has
length `AESGCM_IV_LEN = 12`). -/
theorem c1_roundtrip (C k iv : List Nat) (hk : k.length = 32)
    (hiv : iv.length = AESGCM_IV_LEN) :
    decrypt_with_key (encrypt_with_key C k iv) k = some C := by
  unfold decrypt_with_key encrypt_with_key
  rw [List.take_left' hiv, List.drop_left' hiv]
  exact aead_roundtrip k iv C

theorem c1_roundtrip_witness :
    (List.replicate 32 0 : List Nat).length = 32 ∧
      (List.replicate 12 0 : List Nat).length = AESGCM_IV_LEN ∧
      decrypt_with_key
        (encrypt_with_key [1, 2, 3] (List.replicate 32 0) (List.replicate 12 0))
        (List.replicate 32 0) = some [1, 2, 3] :=
  ⟨by decide, by decide,
    c1_roundtrip [1, 2, 3] (List.replicate 32 0) (List.replicate 12 0)
      (by decide) (by decide)⟩

/-- C2: For every key k and every blob B that is not a valid AEAD output
under k, `_decrypt_with_key(B, k)` fails and never returns any byte string.
Conjunct (a): a blob that is not the encryption of any plaintext under any
12-byte IV decrypts to `none`; (b): replacing the tag of a valid blob by any
other value makes decryption fail; (c): replacing the ciphertext body by any
other byte string while keeping the original tag makes decryption fail (so
any flipped ciphertext or tag bit is rejected); (d): any blob truncated below
the nonce-plus-tag length fails. -/
theorem c2_integrity :
    (∀ k B : List Nat,
        (∀ pt iv : List Nat, iv.length = AESGCM_IV_LEN →
          B ≠ encrypt_with_key pt k iv) →
        decrypt_with_key B k = none) ∧
    (∀ k iv ct : List Nat, ∀ t : Nat, iv.length = AESGCM_IV_LEN →
        t ≠ macN k iv ct → decrypt_with_key (iv ++ ct ++ [t]) k = none) ∧
    (∀ k iv ct ct' : List Nat, iv.length = AESGCM_IV_LEN → ct' ≠ ct →
        decrypt_with_key (iv ++ ct' ++ [macN k iv ct]) k = none) ∧
    (∀ k B : List Nat, B.length < AESGCM_IV_LEN + 1 →
        decrypt_with_key B k = none) := by
  refine ⟨?_, ?_, ?_, ?_⟩
  · intro k B h
    unfold decrypt_with_key aeadDecrypt
    by_cases hlen : (B.drop AESGCM_IV_LEN).length = 0
    · simp [hlen]
    · rcases (B.drop AESGCM_IV_LEN).eq_nil_or_concat with hnil | ⟨ys, y, hd⟩
      · rw [hnil] at hlen; simp at hlen
      · have htake : (B.take AESGCM_IV_LEN).length = AESGCM_IV_LEN := by
          have hgt : AESGCM_IV_LEN < B.length := by
            by_contra hle
            push_neg at hle
            rw [List.drop_eq_nil_of_le hle] at hlen
            simp at hlen
          simp [List.length_take]
          omega
        by_cases htag : y = macN k (B.take AESGCM_IV_LEN) ys
        · exfalso
          apply h ys (B.take AESGCM_IV_LEN) htake
          calc B = B.take AESGCM_IV_LEN ++ B.drop AESGCM_IV_LEN :=
                (List.take_append_drop _ B).symm
            _ = B.take AESGCM_IV_LEN ++ (ys ++ [y]) := by
                rw [hd]; simp [List.concat_eq_append]
            _ = encrypt_with_key ys k (B.take AESGCM_IV_LEN) := by
                rw [encrypt_with_key, aeadEncrypt, htag]
        · rw [hd]
          simp [List.getLastD_concat, List.dropLast_concat, htag, hlen]
  · intro k iv ct t hiv ht
    unfold decrypt_with_key
    rw [List.append_assoc, List.take_left' hiv, List.drop_left' hiv]
    unfold aeadDecrypt
    simp [List.getLastD_concat, List.dropLast_concat, ht]
  · intro k iv ct ct' hiv hne
    unfold decrypt_with_key
    rw [List.append_assoc, List.take_left' hiv, List.drop_left' hiv]
    unfold aeadDecrypt
    have htag : ¬ (macN k iv ct = macN k iv ct') := by
      intro h
      exact hne (macN_inj h.symm).2.2
    simp [List.getLastD_concat, List.dropLast_concat, htag]
  · intro k B hB
    unfold decrypt_with_key aeadDecrypt
    have : (B.drop AESGCM_IV_LEN).length = 0 := by
      simp [List.length_drop]
      omega
    simp [this]

theorem c2_integrity_witness :
    decrypt_with_key [] [] = none ∧
      decrypt_with_key (List.replicate 12 0 ++ [5] ++ [0]) [] = none ∧
      decrypt_with_key
        (List.replicate 12 0 ++ [6] ++ [macN [] (List.replicate 12 0) [5]]) []
        = none ∧
      decrypt_with_key [1, 2, 3] [] = none :=
  ⟨c2_integrity.1 [] []
      (by
        intro pt iv hiv h
        have := congrArg List.length h
        simp [encrypt_with_key, aeadEncrypt, hiv, AESGCM_IV_LEN] at this
        omega),
    c2_integrity.2.1 [] (List.replicate 12 0) [5] 0 (by decide) (by decide),
    c2_integrity.2.2.1 [] (List.replicate 12 0) [5] [6] (by decide) (by decide),
    c2_integrity.2.2.2 [] [1, 2, 3] (by decide)⟩

theorem storage_arc_ne (n : List Char) :
    "storage/".data ++ n ≠ "master.key.enc".data := by
  intro h
  have e1 : "storage/".data ++ n = 's' :: ("torage/".data ++ n) := rfl
  have e2 : "master.key.enc".data = 'm' :: "aster.key.enc".data := rfl
  rw [e1, e2] at h
  injection h with hc _
  exact absurd hc (by decide)

/-- C3: For every vault state and password, the archive produced by
`create_encrypted_backup` contains no member whose name corresponds to the
wrapped master key file `master.key.enc`; its members are exactly the files
under `storage/` (with arcname `storage/<name>`) plus `config.json` and
`recovery.txt` when they exist. -/
theorem c3_backup_excludes_wrapped_key (v : Vault) (password : String)
    (out : List Char) (iv : List Nat) :
    "master.key.enc".data ∉
        (create_encrypted_backup v password out iv).archive.map Prod.fst ∧
      (create_encrypted_backup v password out iv).archive.map Prod.fst =
        v.storage.map (fun e => "storage/".data ++ e.1)
          ++ (if v.config.isSome then ["config.json".data] else [])
          ++ (if v.recovery.isSome then ["recovery.txt".data] else []) := by
  have harc : (create_encrypted_backup v password out iv).archive =
      (v.storage.map (fun e => ("storage/".data ++ e.1, e.2)))
      ++ (match v.config with
          | some c => [("config.json".data, configBytes c)]
          | none => [])
      ++ (match v.recovery with
          | some r => [("recovery.txt".data, r)]
          | none => []) := by
    unfold create_encrypted_backup
    cases load_master_key v password <;> rfl
  have hnames : (create_encrypted_backup v password out iv).archive.map Prod.fst =
      v.storage.map (fun e => "storage/".data ++ e.1)
        ++ (if v.config.isSome then ["config.json".data] else [])
        ++ (if v.recovery.isSome then ["recovery.txt".data] else []) := by
    rw [harc]
    cases v.config <;> cases v.recovery <;>
      simp [List.map_append, Function.comp]
  refine ⟨?_, hnames⟩
  rw [hnames]
  intro hmem
  rcases List.mem_append.mp hmem with h | h
  · rcases List.mem_append.mp h with h | h
    · rcases List.mem_map.mp h with ⟨e, _, he⟩
      exact storage_arc_ne e.1 he
    · by_cases hc : v.config.isSome
      · simp only [hc, if_true, List.mem_singleton] at h
        exact absurd h (by decide)
      · simp [hc] at h
  · by_cases hr : v.recovery.isSome
    · simp only [hr, if_true, List.mem_singleton] at h
      exact absurd h (by decide)
    · simp [hr] at h

/-- C4: Calling the initialize operation a second time on a vault that is
already initialized (config and wrapped-key file both present) is a no-op
that does not overwrite the persisted wrapped key, so the MasterKey
recoverable by the original password is unchanged. -/
theorem c4_init_idempotent (v : Vault) (password : Option String)
    (genPw : String) (master_key salt recTok iv : List Nat)
    (h1 : v.config.isSome) (h2 : v.mkEnc.isSome) :
    init_data_dir v password genPw master_key salt recTok iv = v ∧
      ∀ p : String,
        load_master_key (init_data_dir v password genPw master_key salt recTok iv) p
          = load_master_key v p := by
  have hcond : (v.config.isSome && v.mkEnc.isSome) = true := by
    simp [h1, h2]
  refine ⟨?_, ?_⟩
  · simp [init_data_dir, hcond]
  · intro p
    simp [init_data_dir, hcond]

/-- Concrete password of the test vault. -/
def pw0 : String := "p"

/-- Concrete salt of the test vault. -/
def salt0 : List Nat := [1]

/-- Concrete master key of the test vault. -/
def mk0 : List Nat := [7]

/-- Concrete 12-byte IV. -/
def iv0 : List Nat := List.replicate 12 0

/-- Wrapping key of the test vault. -/
def dk0 : List Nat := derive_key pw0 salt0 1000

/-- A concrete initialized vault: config and wrapped key present, empty
storage, no recovery file. -/
def V0 : Vault :=
  { config := some ⟨salt0, 1000⟩
    mkEnc := some (encrypt_with_key mk0 dk0 iv0)
    recovery := none
    storage := [] }

deriving instance DecidableEq for Except

theorem c4_init_idempotent_witness :
    init_data_dir V0 (some pw0) "g" [9] [2] [3] iv0 = V0 ∧
      load_master_key (init_data_dir V0 (some pw0) "g" [9] [2] [3] iv0) pw0
        = load_master_key V0 pw0 :=
  ⟨(c4_init_idempotent V0 (some pw0) "g" [9] [2] [3] iv0 (by decide) (by decide)).1,
    (c4_init_idempotent V0 (some pw0) "g" [9] [2] [3] iv0 (by decide) (by decide)).2 pw0⟩

/-- C5 counterexample: on an initialized vault with the correct password and
an existing input file, a read failure in the chunked read loop (after the
output file has been opened and the nonce written into it) makes
`store_encrypted` fail while leaving a partial blob — containing only the
12-byte nonce — in `storage/`, contradicting "it fails ... and no new blob
(not even a partial one) is left in storage". -/
theorem c5_counterexample :
    (store_encrypted V0 "a.txt".data (some [5]) pw0 "u1".data iv0
        .streamReadFail).1 = .error .readFail ∧
      (store_encrypted V0 "a.txt".data (some [5]) pw0 "u1".data iv0
        .streamReadFail).2.storage = [("u1__a.txt.jmn".data, iv0)] ∧
      (store_encrypted V0 "a.txt".data (some [5]) pw0 "u1".data iv0
        .streamReadFail).2.storage ≠ V0.storage := by
  refine ⟨by decide, by decide, by decide⟩

/-- C5 amended: the store operation is atomic only up to the opening of the
output file.  A key-load error or a missing input file leaves storage
unchanged; but a read error raised after the output file has been opened
(the chunked read loop, or the later `input_path.read_bytes()`) leaves a
partial blob containing only the nonce in storage; on success the one new
blob `nonce ++ ciphertext ++ tag` is persisted under the generated name. -/
theorem c5_amended (v : Vault) (inputName : List Char)
    (input : Option (List Nat)) (password : String) (uuidStr : List Char)
    (iv : List Nat) (fault : StoreFault) :
    (∀ e, load_master_key v password = .error e →
        store_encrypted v inputName input password uuidStr iv fault
          = (.error e, v)) ∧
    (∀ mk, load_master_key v password = .ok mk → input = none →
        store_encrypted v inputName input password uuidStr iv fault
          = (.error .inputMissing, v)) ∧
    (∀ mk data, load_master_key v password = .ok mk → input = some data →
        fault ≠ .ok →
        store_encrypted v inputName input password uuidStr iv fault
          = (.error .readFail,
              { v with storage := storageWrite v.storage (blobName uuidStr inputName) iv })) ∧
    (∀ mk data, load_master_key v password = .ok mk → input = some data →
        fault = .ok →
        store_encrypted v inputName input password uuidStr iv fault
          = (.ok (blobName uuidStr inputName),
              { v with storage := storageWrite (storageWrite v.storage (blobName uuidStr inputName) iv) (blobName uuidStr inputName) (iv ++ aeadEncrypt mk iv data) })) := by
  refine ⟨?_, ?_, ?_, ?_⟩
  · intro e he
    unfold store_encrypted
    rw [he]
  · intro mk hmk hin
    unfold store_encrypted
    rw [hmk, hin]
  · intro mk data hmk hin hf
    unfold store_encrypted
    rw [hmk, hin]
    cases fault with
    | ok => exact absurd rfl hf
    | streamReadFail => rfl
    | secondReadFail => rfl
  · intro mk data hmk hin hf
    unfold store_encrypted
    rw [hmk, hin, hf]

theorem c5_amended_witness :
    store_encrypted V0 "a.txt".data (some [5]) pw0 "u1".data iv0
        .streamReadFail
      = (.error .readFail,
          { V0 with storage := storageWrite V0.storage (blobName "u1".data "a.txt".data) iv0 }) :=
  (c5_amended V0 "a.txt".data (some [5]) pw0 "u1".data iv0
      .streamReadFail).2.2.1 mk0 [5] (by decide) rfl (by decide)

/-- The lookup as claim C6 describes it: exact name match first, then the
name with the blob extension appended, then a case-insensitive name match,
and only then a prefix match restricted to the identifier portion before the
`__` separator; not-found otherwise.  (Stated from the claim's words, to be
compared with `find_stored_path`, which is translated from the source.) -/
def claimLookup (files : List (List Char)) (q : List Char) :
    Option (List Char) :=
  if q ∈ files then some q
  else if (q ++ jmnExt) ∈ files then some (q ++ jmnExt)
  else
    match files.find? (fun n => lowerS n == lowerS q) with
    | some n => some n
    | none =>
      files.find? (fun n =>
        match idPartOf n with
        | some idp => q.isPrefixOf idp
        | none => false)

/-- C6 counterexample: with storage `["abc__doc.jmn"]` and query `"abc__d"`,
the code's lookup resolves the blob through a plain prefix match on the full
blob name (the prefix extends past the `__` separator into the name portion),
while the precedence the claim describes — where the prefix match is
restricted to the identifier portion before the separator — reports
not-found. -/
theorem c6_counterexample :
    find_stored_path ["abc__doc.jmn".data] "abc__d".data
        = some "abc__doc.jmn".data ∧
      claimLookup ["abc__doc.jmn".data] "abc__d".data = none := by
  refine ⟨by decide, by decide⟩

theorem loopFind_eq_find (q : List Char) (files : List (List Char)) :
    loopFind q files
      = files.find? (fun n => ciMatch q n || q.isPrefixOf n || idMatch q n) := by
  induction files with
  | nil => rfl
  | cons n rest ih =>
    simp only [loopFind, List.find?]
    cases h1 : ciMatch q n <;> cases h2 : q.isPrefixOf n <;>
      cases h3 : idMatch q n <;> simp [h1, h2, h3, ih]

/-- C6 amended: the lookup tries an exact name match, then the name with the
blob extension appended; after that it scans the directory entries in
enumeration order and returns the first entry that matches the name (or the
name plus `.jmn`) case-insensitively, or has the queried name as a literal
prefix of the full blob name (not restricted to the identifier portion), or
whose identifier portion before the `__` separator equals the queried name
case-insensitively; the three per-entry checks are tried entry by entry, so
an earlier entry matching any rule wins over a later entry matching another;
when no candidate matches, the lookup reports not-found. -/
theorem c6_amended (files : List (List Char)) (q : List Char) :
    find_stored_path files q
      = if q ∈ files then some q
        else if (q ++ jmnExt) ∈ files then some (q ++ jmnExt)
        else files.find? (fun n => ciMatch q n || q.isPrefixOf n || idMatch q n) := by
  unfold find_stored_path
  rw [loopFind_eq_find]

/-- Sanitization as claim C7 describes it: characters outside alphanumerics,
`.`, `_`, `-` are stripped (removed), characters inside the set kept in
order.  (Stated from the claim's words, to be compared with
`sanitize_filename`, which is translated from the source.) -/
def sanitizeStripped (fn : List Char) : List Char :=
  fn.filter (fun c => c.isAlphanum || c = '.' || c = '_' || c = '-')

/-- C7 counterexample: on the original name `"a b"` the code's sanitizer
replaces the space with an underscore, yielding `"a_b"`, whereas the claimed
stripping behaviour would yield `"ab"`. -/
theorem c7_counterexample :
    sanitize_filename "a b".data = "a_b".data ∧
      sanitizeStripped "a b".data = "ab".data ∧
      sanitize_filename "a b".data ≠ sanitizeStripped "a b".data := by
  refine ⟨by decide, by decide, by decide⟩

/-- C7 amended: the sanitized name has the same length as the original, and
position by position every character outside alphanumerics, `.`, `_`, `-` is
replaced by `_` (not removed) while characters inside that set are kept in
place. -/
theorem c7_amended (fn : List Char) :
    (sanitize_filename fn).length = fn.length ∧
      ∀ i : Nat,
        (sanitize_filename fn)[i]? = (fn[i]?).map
          (fun c => if c.isAlphanum || c = '.' || c = '_' || c = '-' then c else '_') := by
  constructor
  · simp [sanitize_filename]
  · intro i
    simp [sanitize_filename]

theorem map_noMatch (st : List (List Char × List Nat)) (nm : List Char)
    (c : List Nat) (h : st.any (fun e => e.1 == nm) = false) :
    st.map (fun e => if e.1 == nm then (nm, c) else e) = st := by
  induction st with
  | nil => rfl
  | cons e t ih =>
    simp only [List.any_cons, Bool.or_eq_false_iff] at h
    simp only [List.map_cons]
    rw [if_neg (by simp [h.1]), ih h.2]

theorem storageWrite_fresh (st : List (List Char × List Nat)) (nm : List Char)
    (c : List Nat) (h : st.any (fun e => e.1 == nm) = false) :
    storageWrite st nm c = st ++ [(nm, c)] := by
  simp [storageWrite, h]

theorem storageWrite_overwrite_last (st : List (List Char × List Nat))
    (nm : List Char) (c0 c : List Nat)
    (h : st.any (fun e => e.1 == nm) = false) :
    storageWrite (st ++ [(nm, c0)]) nm c = st ++ [(nm, c)] := by
  have hany : (st ++ [(nm, c0)]).any (fun e => e.1 == nm) = true := by
    simp [List.any_append]
  simp only [storageWrite, hany, if_true, List.map_append]
  rw [map_noMatch st nm c h]
  simp

/-- C8: For every stored file, the blob persisted in `storage/` is named
`<uuid>__<sanitized-name>.<ext>` — the generated UUID, the `__` separator,
the sanitized original name (which carries the original's extension), and the
`.jmn` blob extension — and `store_encrypted` returns exactly that name. -/
theorem c8_blob_name (v : Vault) (inputName : List Char) (data : List Nat)
    (password : String) (uuidStr : List Char) (iv mk : List Nat)
    (hld : load_master_key v password = .ok mk)
    (hfresh : v.storage.any (fun e => e.1 == blobName uuidStr inputName) = false) :
    store_encrypted v inputName (some data) password uuidStr iv .ok
        = (.ok (blobName uuidStr inputName),
            { v with storage := v.storage ++ [(blobName uuidStr inputName, iv ++ aeadEncrypt mk iv data)] }) ∧
      blobName uuidStr inputName
        = uuidStr ++ "__".data ++ sanitize_filename inputName ++ ".jmn".data := by
  refine ⟨?_, rfl⟩
  unfold store_encrypted
  rw [hld]
  simp only [storageWrite_fresh v.storage _ _ hfresh]
  rw [storageWrite_overwrite_last v.storage _ _ _ hfresh]

theorem c8_blob_name_witness :
    store_encrypted V0 "a.txt".data (some [5]) pw0 "u1".data iv0 .ok
        = (.ok (blobName "u1".data "a.txt".data),
            { V0 with storage := V0.storage ++ [(blobName "u1".data "a.txt".data, iv0 ++ aeadEncrypt mk0 iv0 [5])] }) ∧
      blobName "u1".data "a.txt".data
        = "u1".data ++ "__".data ++ sanitize_filename "a.txt".data ++ ".jmn".data :=
  c8_blob_name V0 "a.txt".data [5] pw0 "u1".data iv0 mk0 (by decide) (by decide)

/-- C9 counterexample: on a concrete initialized vault with the correct
password, `create_encrypted_backup` succeeds, and its filesystem trace
unlinks the intermediate plaintext zip without ever overwriting it with
random bytes — the plaintext zip is merely unlinked, contradicting the
claimed secure erasure. -/
theorem c9_counterexample :
    (create_encrypted_backup V0 pw0 "b.zip".data iv0).result
        = some ("b.zip".data ++ BACKUP_SUFFIX) ∧
      FsOp.unlink "b.zip".data ∈ (create_encrypted_backup V0 pw0 "b.zip".data iv0).ops ∧
      FsOp.overwriteRandom "b.zip".data ∉ (create_encrypted_backup V0 pw0 "b.zip".data iv0).ops := by
  refine ⟨by decide, by decide, by decide⟩

/-- C9 amended: after producing the encrypted backup, `create_encrypted_backup`
removes the intermediate unencrypted zip archive with a plain best-effort
unlink; it performs no overwrite-with-random-bytes pass on it (nor on any
other file) during the operation. -/
theorem c9_amended (v : Vault) (password : String) (out : List Char)
    (iv mk : List Nat) (h : load_master_key v password = .ok mk) :
    FsOp.unlink out ∈ (create_encrypted_backup v password out iv).ops ∧
      ∀ n : List Char,
        FsOp.overwriteRandom n ∉ (create_encrypted_backup v password out iv).ops := by
  unfold create_encrypted_backup
  rw [h]
  constructor
  · simp
  · intro n
    simp

theorem c9_amended_witness :
    FsOp.unlink "b.zip".data ∈ (create_encrypted_backup V0 pw0 "b.zip".data iv0).ops ∧
      FsOp.overwriteRandom "master.key.enc".data ∉ (create_encrypted_backup V0 pw0 "b.zip".data iv0).ops :=
  ⟨(c9_amended V0 pw0 "b.zip".data iv0 mk0 (by decide)).1,
    (c9_amended V0 pw0 "b.zip".data iv0 mk0 (by decide)).2 "master.key.enc".data⟩

/-- C10: The delete operation's outcome never depends on the password
argument: for every vault state, stored name and any two passwords, the
result and the resulting vault state are identical — the password is never
checked before deletion (`delete_stored` never reads its `password`
parameter). -/
theorem c10_delete_password_independent (v : Vault) (q : List Char)
    (p1 p2 : String) :
    delete_stored v q p1 = delete_stored v q p2 := rfl

end Juman
